import Mathlib

/-
Verification of the easyrest MySQL plugin (mysql_plugin.go, v0.6.2).

The Go source is shallowly embedded below.  Go maps (map[string]any) are
represented as association lists `List (String × _)`; Go map insertion
(`m[k] = v`) is `mapSet`, Go map lookup with the comma-ok idiom is
`lookupAssoc`.  External collaborators (the easyrest helper library, the
database/sql transaction machinery, the MySQL engine) are either
parameterized over or modelled from their documented contracts, as noted
at each definition.
-/

namespace MySQLPlugin

/-- Values carried in Go `any` slots: strings, integers, booleans, nil. -/
inductive GoValue where
  | vStr (s : String)
  | vInt (n : Int)
  | vBool (b : Bool)
  | vNull
  deriving DecidableEq, Repr

instance {ε α : Type} [DecidableEq ε] [DecidableEq α] :
    DecidableEq (Except ε α) := fun a b =>
  match a, b with
  | .ok a, .ok b =>
      if h : a = b then isTrue (by rw [h]) else isFalse (by simp [h])
  | .error e, .error f =>
      if h : e = f then isTrue (by rw [h]) else isFalse (by simp [h])
  | .ok _, .error _ => isFalse (by simp)
  | .error _, .ok _ => isFalse (by simp)

/-- Association-list lookup, the comma-ok Go map read `v, ok := m[k]`. -/
def lookupAssoc {α : Type} : List (String × α) → String → Option α
  | [], _ => none
  | (k, v) :: rest, key => if k = key then some v else lookupAssoc rest key

/-- Go map read `m[k]` for a `map[string]any`: missing keys yield nil. -/
def lookupGo (m : List (String × GoValue)) (k : String) : GoValue :=
  (lookupAssoc m k).getD GoValue.vNull

/-- True when the map has an entry for the key. -/
def hasKey {α : Type} (m : List (String × α)) (k : String) : Bool :=
  m.any (fun kv => kv.fst = k)

/-- Go map write `m[k] = v`: replace the entry when the key is present,
append it otherwise. -/
def mapSet {α : Type} (m : List (String × α)) (k : String) (v : α) :
    List (String × α) :=
  if hasKey m k then m.map (fun kv => if kv.fst = k then (k, v) else kv)
  else m ++ [(k, v)]

/-- Go `strings.Join(xs, sep)`. -/
def goJoin (sep : String) : List String → String
  | [] => ""
  | [x] => x
  | x :: y :: ys => x ++ sep ++ goJoin sep (y :: ys)

/-- Concatenation of `sep ++ x` over a list; the tail of a join. -/
def joinTail (sep : String) : List String → String
  | [] => ""
  | x :: xs => sep ++ x ++ joinTail sep xs

/-- Boolean lexicographic comparison of character lists by code point;
kernel-computable stand-in for the standard order. -/
def charListLe : List Char → List Char → Bool
  | [], _ => true
  | _ :: _, [] => false
  | c :: cs, d :: ds =>
      if c.toNat < d.toNat then true
      else if d.toNat < c.toNat then false
      else charListLe cs ds

/-- Boolean string comparison; agrees with the standard lexicographic
order on strings (`strLe_iff`), which is the order used by Go's
`sort.Strings` (byte order and code-point order agree on UTF-8). -/
def strLe (a b : String) : Bool := charListLe a.data b.data

theorem charListLe_iff (l₁ l₂ : List Char) :
    charListLe l₁ l₂ = true ↔ ¬ List.lt l₂ l₁ := by
  induction l₁ generalizing l₂ with
  | nil =>
    cases l₂ with
    | nil =>
        constructor
        · intro _ h; cases h
        · intro _; rfl
    | cons d ds =>
        constructor
        · intro _ h; cases h
        · intro _; rfl
  | cons c cs ih =>
    cases l₂ with
    | nil =>
        constructor
        · intro h; cases h
        · intro h; exact absurd (List.lt.nil c cs) h
    | cons d ds =>
        show (if c.toNat < d.toNat then true
          else if d.toNat < c.toNat then false else charListLe cs ds) = true
          ↔ ¬ List.lt (d :: ds) (c :: cs)
        rcases Nat.lt_trichotomy c.toNat d.toNat with hlt | heq | hgt
        · rw [if_pos hlt]
          constructor
          · intro _ h
            cases h with
            | head _ _ hdc => exact Nat.lt_asymm hlt hdc
            | tail h1 h2 h3 => exact h2 hlt
          · intro _; rfl
        · rw [if_neg (by omega), if_neg (by omega)]
          rw [ih ds]
          constructor
          · intro h hl
            cases hl with
            | head _ _ hdc =>
                have hn : d.toNat < c.toNat := hdc
                omega
            | tail h1 h2 h3 => exact h h3
          · intro h hl
            refine h (List.lt.tail ?_ ?_ hl)
            · intro hdc
              have hn : d.toNat < c.toNat := hdc
              omega
            · intro hcd
              have hn : c.toNat < d.toNat := hcd
              omega
        · rw [if_neg (by omega), if_pos hgt]
          constructor
          · intro h; cases h
          · intro h
            exact absurd (List.lt.head ds cs hgt) h

theorem strLe_iff (a b : String) : strLe a b = true ↔ a ≤ b := by
  show charListLe a.data b.data = true ↔ a ≤ b
  rw [String.le_iff_toList_le, ← not_lt]
  have hconv : ∀ x y : List Char, x < y ↔ List.lt x y := fun x y =>
    (List.lt_iff_lex_lt x y).symm
  rw [hconv]
  exact charListLe_iff a.data b.data

instance : IsTotal String (fun a b => strLe a b = true) :=
  ⟨fun a b => by
    rcases le_total a b with h | h
    · exact Or.inl ((strLe_iff a b).mpr h)
    · exact Or.inr ((strLe_iff b a).mpr h)⟩

instance : IsTrans String (fun a b => strLe a b = true) :=
  ⟨fun a b c hab hbc =>
    (strLe_iff a c).mpr (le_trans ((strLe_iff a b).mp hab)
      ((strLe_iff b c).mp hbc))⟩

/-- Go `sort.Strings`: ascending lexicographic sort. -/
def sortStrings (l : List String) : List String :=
  List.insertionSort (fun a b => strLe a b = true) l

theorem sortStrings_sorted (l : List String) :
    List.Sorted (· ≤ ·) (sortStrings l) :=
  (List.sorted_insertionSort _ l).imp (fun h => (strLe_iff _ _).mp h)

theorem sortStrings_perm (l : List String) : List.Perm (sortStrings l) l :=
  List.perm_insertionSort _ l

/-- A context map as seen by `injectContext`: the outcome of the external
collaborator `easyrest.FormatToContext` (which flattens the nested map, and
may fail), together with the value stored under the key "timezone" in the
original, unflattened map (absent when the key is missing). -/
structure CtxMap where
  flat : Except String (List (String × GoValue))
  timezone : Option GoValue

/-- Text contributed by one flattened context key to the SET statement. -/
def ctxPair (k : String) : String :=
  "@erctx_" ++ k ++ " = ?, @request_" ++ k ++ " = ?"

/-- State of the statement builder inside `injectContext`: the text built so
far, the bound arguments, and Go's `first` flag. -/
structure SetBuild where
  text : String
  args : List GoValue
  first : Bool
  deriving DecidableEq, Repr

/-- The loop over `sortedKeys` in `injectContext` (part_005 lines 84-96):
each key appends `, ` (unless first), its two assignments, and binds its
value twice. -/
def setLoop (look : String → GoValue) : List String → SetBuild → SetBuild
  | [], st => st
  | k :: ks, st =>
      setLoop look ks
        { text := (if st.first then st.text else st.text ++ ", ") ++ ctxPair k
          args := st.args ++ [look k, look k]
          first := false }

/-- The statement (text and arguments) executed by `injectContext`
(part_005 lines 58-113): `none` means no statement is executed.  A nil
context or a context flattening to zero entries executes nothing; otherwise
the flattened keys are sorted, each contributes two assignments, and a
non-empty string "timezone" field appends a trailing `time_zone = ?`. -/
def injectContext (ctx : Option CtxMap) :
    Except String (Option (String × List GoValue)) :=
  match ctx with
  | none => .ok none
  | some c =>
    match c.flat with
    | .error e => .error ("failed to format context: " ++ e)
    | .ok flatCtx =>
      if flatCtx.isEmpty then .ok none
      else
        let sortedKeys := sortStrings (flatCtx.map Prod.fst)
        let st := setLoop (lookupGo flatCtx) sortedKeys ⟨"SET ", [], true⟩
        match c.timezone with
        | some (GoValue.vStr s) =>
            if s ≠ "" then
              .ok (some ((if st.first then st.text else st.text ++ ", ") ++ "time_zone = ?",
                st.args ++ [GoValue.vStr s]))
            else .ok (some (st.text, st.args))
        | _ => .ok (some (st.text, st.args))

/-- Trailing timezone text of the SET statement, from the branch at
part_005 lines 98-106: present exactly for a non-empty string field. -/
def tzText : Option GoValue → String
  | some (GoValue.vStr s) => if s ≠ "" then ", time_zone = ?" else ""
  | _ => ""

/-- Trailing timezone argument of the SET statement (same branch). -/
def tzArgs : Option GoValue → List GoValue
  | some (GoValue.vStr s) => if s ≠ "" then [GoValue.vStr s] else []
  | _ => []

theorem setLoop_notFirst (look : String → GoValue) (ks : List String)
    (t : String) (a : List GoValue) :
    setLoop look ks ⟨t, a, false⟩ =
      ⟨t ++ joinTail ", " (ks.map ctxPair),
       a ++ ks.flatMap (fun k => [look k, look k]), false⟩ := by
  induction ks generalizing t a with
  | nil => simp [setLoop, joinTail]
  | cons k ks ih =>
      simp only [setLoop, if_neg (by simp : ¬(false = true))]
      rw [ih]
      simp [joinTail, String.append_assoc, List.append_assoc]

theorem setLoop_start (look : String → GoValue) (k : String) (ks : List String) :
    setLoop look (k :: ks) ⟨"SET ", [], true⟩ =
      ⟨"SET " ++ goJoin ", " ((k :: ks).map ctxPair),
       (k :: ks).flatMap (fun k => [look k, look k]), false⟩ := by
  have hjoin : ∀ (x : String) (xs : List String),
      goJoin ", " (x :: xs) = x ++ joinTail ", " xs := by
    intro x xs
    induction xs generalizing x with
    | nil => simp [goJoin, joinTail]
    | cons y ys ih => simp [goJoin, joinTail, ih y, String.append_assoc]
  simp only [setLoop, if_pos rfl]
  rw [setLoop_notFirst]
  simp [hjoin, String.append_assoc]

/-- C1: for a non-nil context that flattens to at least one entry,
`injectContext` executes exactly one SET statement whose assignments appear
in lexicographically sorted flattened-key order, each key contributing
`@erctx_<key> = ?, @request_<key> = ?` with its value bound twice, followed
by a trailing `time_zone = ?` (bound to the timezone string) iff the
context has a non-empty string field "timezone"; a nil context or one
flattening to zero entries executes no statement and returns success. -/
theorem injectContext_sorted_pairs :
    (injectContext none = .ok none)
  ∧ (∀ c : CtxMap, c.flat = .ok [] → injectContext (some c) = .ok none)
  ∧ (∀ (c : CtxMap) (flatCtx : List (String × GoValue)),
      c.flat = .ok flatCtx → flatCtx ≠ [] →
      ∃ ks : List String,
        List.Sorted (· ≤ ·) ks
      ∧ List.Perm ks (flatCtx.map Prod.fst)
      ∧ injectContext (some c) = .ok (some
          ("SET " ++ goJoin ", " (ks.map ctxPair) ++ tzText c.timezone,
           ks.flatMap (fun k => [lookupGo flatCtx k, lookupGo flatCtx k])
             ++ tzArgs c.timezone)))
  ∧ (∀ tz : Option GoValue,
      ((∃ s, tz = some (GoValue.vStr s) ∧ s ≠ "") →
        tzText tz = ", time_zone = ?")
      ∧ ((¬ ∃ s, tz = some (GoValue.vStr s) ∧ s ≠ "") →
        tzText tz = "" ∧ tzArgs tz = [])
      ∧ (∀ s, tz = some (GoValue.vStr s) → s ≠ "" →
        tzArgs tz = [GoValue.vStr s])) := by
  refine ⟨rfl, ?_, ?_, ?_⟩
  · intro c hc
    simp [injectContext, hc]
  · intro c flatCtx hc hne
    refine ⟨sortStrings (flatCtx.map Prod.fst),
      sortStrings_sorted _, sortStrings_perm _, ?_⟩
    have hkeys : flatCtx.map Prod.fst ≠ [] := by
      simpa using hne
    obtain ⟨k, ks, hks⟩ : ∃ k ks,
        sortStrings (flatCtx.map Prod.fst) = k :: ks := by
      rcases hsort : sortStrings (flatCtx.map Prod.fst) with _ | ⟨k, ks⟩
      · exact absurd (List.Perm.nil_eq (hsort ▸
          (sortStrings_perm _))).symm hkeys
      · exact ⟨k, ks, rfl⟩
    have hempty : flatCtx.isEmpty = false := by
      cases flatCtx with
      | nil => exact absurd rfl hne
      | cons a l => rfl
    simp only [injectContext, hc, hempty, Bool.false_eq_true, if_false, hks,
      setLoop_start]
    have hcomma : ∀ t : String, (t ++ ", ") ++ "time_zone = ?"
        = t ++ ", time_zone = ?" := by
      intro t
      rw [String.append_assoc]
      have h2 : (", " ++ "time_zone = ?" : String) = ", time_zone = ?" := by
        decide
      rw [h2]
    cases htz : c.timezone with
    | none => simp [tzText, tzArgs, String.append_empty]
    | some v =>
      cases v with
      | vStr s =>
          by_cases hs : s = ""
          · simp [hs, tzText, tzArgs, String.append_empty]
          · simp [hs, tzText, tzArgs, hcomma]
      | vInt n => simp [tzText, tzArgs, String.append_empty]
      | vBool b => simp [tzText, tzArgs, String.append_empty]
      | vNull => simp [tzText, tzArgs, String.append_empty]
  · intro tz
    refine ⟨?_, ?_, ?_⟩
    · rintro ⟨s, rfl, hs⟩
      simp [tzText, hs]
    · intro h
      cases tz with
      | none => exact ⟨rfl, rfl⟩
      | some v =>
        cases v with
        | vStr s =>
            have hs : s = "" := by
              by_contra hs
              exact h ⟨s, rfl, hs⟩
            simp [tzText, tzArgs, hs]
        | vInt n => exact ⟨rfl, rfl⟩
        | vBool b => exact ⟨rfl, rfl⟩
        | vNull => exact ⟨rfl, rfl⟩
    · rintro s rfl hs
      simp [tzArgs, hs]

/-- Witness for C1: a concrete two-key context with a timezone, checked
against the theorem and by direct evaluation. -/
theorem injectContext_sorted_pairs_witness :
    ((CtxMap.mk (.ok [("b", GoValue.vInt 2), ("a", GoValue.vStr "x")])
        (some (GoValue.vStr "UTC"))).flat
      = .ok [("b", GoValue.vInt 2), ("a", GoValue.vStr "x")]
    ∧ ([("b", GoValue.vInt 2), ("a", GoValue.vStr "x")] :
        List (String × GoValue)) ≠ [])
  ∧ (∃ ks : List String,
      List.Sorted (· ≤ ·) ks
    ∧ List.Perm ks ([("b", GoValue.vInt 2), ("a", GoValue.vStr "x")].map
        Prod.fst)
    ∧ injectContext (some (CtxMap.mk
        (.ok [("b", GoValue.vInt 2), ("a", GoValue.vStr "x")])
        (some (GoValue.vStr "UTC")))) = .ok (some
        ("SET " ++ goJoin ", " (ks.map ctxPair)
            ++ tzText (some (GoValue.vStr "UTC")),
         ks.flatMap (fun k =>
            [lookupGo [("b", GoValue.vInt 2), ("a", GoValue.vStr "x")] k,
             lookupGo [("b", GoValue.vInt 2), ("a", GoValue.vStr "x")] k])
           ++ tzArgs (some (GoValue.vStr "UTC")))))
  ∧ injectContext (some (CtxMap.mk
        (.ok [("b", GoValue.vInt 2), ("a", GoValue.vStr "x")])
        (some (GoValue.vStr "UTC")))) = .ok (some
        ("SET @erctx_a = ?, @request_a = ?, @erctx_b = ?, @request_b = ?, time_zone = ?",
         [GoValue.vStr "x", GoValue.vStr "x", GoValue.vInt 2, GoValue.vInt 2,
          GoValue.vStr "UTC"])) :=
  ⟨⟨rfl, by decide⟩,
   injectContext_sorted_pairs.2.2.1 _ _ rfl (by decide),
   by decide⟩

/-- Values of the operation result (`any`) distinguished by the type switch
in `handleTransaction` (part_005 lines 609-616): Go `int` (the affected-row
count of update/delete), Go `int64`, result rows (create/call), or nil. -/
inductive GoAny where
  | aInt (n : Int)
  | aInt64 (n : Int)
  | aRows (rows : List (List (String × GoValue)))
  | aNil
  deriving DecidableEq, Repr

/-- State of one `database/sql` transaction: whether it has been finalized
(`done`), and how many effective finalizations (open-to-done transitions)
have happened on it. -/
structure TxState where
  done : Bool
  finCount : Nat
  deriving DecidableEq, Repr

/-- Modelled from the `database/sql` contract: both `Tx.Commit` and
`Tx.Rollback` first check the done flag and return `ErrTxDone` without
touching the transaction when it is already finalized; otherwise they mark
it done (whether or not the driver reports an error) and return the driver
outcome. -/
def txFinalize (driverOk : Bool) (errMsg : String) (s : TxState) :
    Except String Unit × TxState :=
  if s.done then
    (.error "sql: transaction has already been committed or rolled back", s)
  else ((if driverOk then .ok () else .error errMsg),
    ⟨true, s.finCount + 1⟩)

/-- Environment outcomes for one `handleTransaction` run: whether `BeginTx`
succeeds, the result of the external `easyrest.GetTxPreference`, whether
executing the injected SET statement succeeds, the operation's result, and
the driver outcomes of commit and rollback. -/
structure TxOracle where
  beginOk : Bool
  txPref : Except String String
  injectOk : Bool
  opResult : Except String GoAny
  commitOk : Bool
  rollbackOk : Bool
  deriving DecidableEq, Repr

/-- Outcome of `m.injectContext(conn, ctxMap)` as called from
`handleTransaction`: a flattening error propagates; with no statement to
run it succeeds; otherwise the oracle decides whether the SET statement
executes. -/
def injectOutcome (o : TxOracle) (cm : CtxMap) : Except String Unit :=
  match injectContext (some cm) with
  | .error e => .error e
  | .ok none => .ok ()
  | .ok (some _) =>
      if o.injectOk then .ok ()
      else .error "failed to set session variables: driver error"

/-- Result of one `handleTransaction` run: the returned value or error, and
the final state of the transaction (`none` when `BeginTx` failed and no
transaction was begun). -/
structure TxRun where
  ret : Except String GoAny
  tx : Option TxState
  deriving DecidableEq, Repr

/-- Tail of `handleTransaction` from the operation call onward (part_005
lines 594-629), shared by the context and no-context paths. -/
def handleTxTail (o : TxOracle) (pref : String) (s : TxState) : TxRun :=
  match o.opResult with
  | .error e =>
      let r := txFinalize o.rollbackOk "rollback driver error" s
      ⟨.error e, some r.2⟩
  | .ok result =>
      if pref = "rollback" then
        match txFinalize o.rollbackOk "rollback driver error" s with
        | (.error e, s1) =>
            ⟨.error ("failed to rollback transaction: " ++ e), some s1⟩
        | (.ok _, s1) =>
            match result with
            | .aInt _ => ⟨.ok (.aInt 0), some s1⟩
            | .aInt64 _ => ⟨.ok (.aInt64 0), some s1⟩
            | r => ⟨.ok r, some s1⟩
      else
        match txFinalize o.commitOk "commit driver error" s with
        | (.ok _, s1) => ⟨.ok result, some s1⟩
        | (.error e, s1) =>
            match txFinalize o.rollbackOk "rollback driver error" s1 with
            | (.error rbe, s2) =>
                ⟨.error ("failed to commit transaction: " ++ e
                  ++ " (rollback also failed: " ++ rbe ++ ")"), some s2⟩
            | (.ok _, s2) =>
                ⟨.error ("failed to commit transaction: " ++ e), some s2⟩

/-- The transaction coordinator `handleTransaction` (part_005 lines
565-630): begin, resolve the transaction preference and inject context when
a context map is present, run the operation, then commit or roll back
according to the resolved preference, zeroing `int`/`int64` results on a
preference rollback.  Connection acquisition is kept implicit (its failure
is the same early return as a begin failure). -/
def handleTransaction (o : TxOracle) (ctxMap : Option CtxMap) : TxRun :=
  if !o.beginOk then ⟨.error "failed to begin tx", none⟩
  else
    let s0 : TxState := ⟨false, 0⟩
    match ctxMap with
    | some cm =>
        match o.txPref with
        | .error e => ⟨.error e, some s0⟩
        | .ok pref =>
            match injectOutcome o cm with
            | .error e =>
                let r := txFinalize o.rollbackOk "rollback driver error" s0
                ⟨.error ("failed to inject context: " ++ e), some r.2⟩
            | .ok _ => handleTxTail o pref s0
    | none => handleTxTail o "commit" s0

/-- C2 (code bug): the claim that every begun transaction is committed or
rolled back exactly once on every path fails on the transaction-preference
resolution failure path: when `easyrest.GetTxPreference` returns an error,
`handleTransaction` returns that error with the begun transaction neither
committed nor rolled back (final state: not done, zero finalizations). -/
theorem handleTransaction_txpref_leak :
    (handleTransaction
      ⟨true, .error "invalid transaction preference", true,
        .ok (.aInt 3), true, true⟩ (some ⟨.ok [], none⟩)).ret
      = .error "invalid transaction preference"
  ∧ (handleTransaction
      ⟨true, .error "invalid transaction preference", true,
        .ok (.aInt 3), true, true⟩ (some ⟨.ok [], none⟩)).tx
      = some ⟨false, 0⟩ := by
  exact ⟨rfl, rfl⟩

/-- C3: under the transaction coordinator with a successfully begun
transaction, successful context injection and a successful operation, a
resolved preference of "rollback" rolls the transaction back and replaces a
write-count result (`int`/`int64`, from update/delete) by zero while
returning row-producing results (create/call) unchanged; a resolved
preference of "commit", and the default taken when no context map is
supplied, commit and return the result unchanged. -/
theorem handleTransaction_rollback_zero (o : TxOracle) (cm : CtxMap)
    (r : GoAny) (hb : o.beginOk = true) (hi : injectOutcome o cm = .ok ())
    (hop : o.opResult = .ok r) (hrb : o.rollbackOk = true)
    (hc : o.commitOk = true) :
    (o.txPref = .ok "rollback" →
      (handleTransaction o (some cm)).ret = .ok (match r with
        | .aInt _ => .aInt 0
        | .aInt64 _ => .aInt64 0
        | x => x)
      ∧ (handleTransaction o (some cm)).tx = some ⟨true, 1⟩)
  ∧ (o.txPref = .ok "commit" →
      (handleTransaction o (some cm)).ret = .ok r
      ∧ (handleTransaction o (some cm)).tx = some ⟨true, 1⟩)
  ∧ ((handleTransaction o none).ret = .ok r
      ∧ (handleTransaction o none).tx = some ⟨true, 1⟩) := by
  refine ⟨?_, ?_, ?_⟩
  · intro hp
    cases r <;>
      simp [handleTransaction, handleTxTail, txFinalize, hb, hp, hi, hop, hrb]
  · intro hp
    simp [handleTransaction, handleTxTail, txFinalize, hb, hp, hi, hop, hc]
  · simp [handleTransaction, handleTxTail, txFinalize, hb, hop, hc]

/-- Witness for C3: a concrete oracle resolving to "rollback" with an
update-style `int` result of 5, which comes back as 0. -/
theorem handleTransaction_rollback_zero_witness :
    ((⟨true, .ok "rollback", true, .ok (.aInt 5), true, true⟩ :
        TxOracle).beginOk = true
    ∧ injectOutcome ⟨true, .ok "rollback", true, .ok (.aInt 5), true, true⟩
        ⟨.ok [], none⟩ = .ok ()
    ∧ (⟨true, .ok "rollback", true, .ok (.aInt 5), true, true⟩ :
        TxOracle).opResult = .ok (.aInt 5))
  ∧ ((⟨true, .ok "rollback", true, .ok (.aInt 5), true, true⟩ :
        TxOracle).txPref = .ok "rollback" →
      (handleTransaction ⟨true, .ok "rollback", true, .ok (.aInt 5), true,
        true⟩ (some ⟨.ok [], none⟩)).ret = .ok (.aInt 0)
      ∧ (handleTransaction ⟨true, .ok "rollback", true, .ok (.aInt 5), true,
        true⟩ (some ⟨.ok [], none⟩)).tx = some ⟨true, 1⟩) :=
  ⟨⟨rfl, rfl, rfl⟩,
   (handleTransaction_rollback_zero
      ⟨true, .ok "rollback", true, .ok (.aInt 5), true, true⟩
      ⟨.ok [], none⟩ (.aInt 5) rfl rfl rfl rfl rfl).1⟩

/-- One routine parameter definition (part_005 lines 36-41). -/
structure RoutineParam where
  name : String
  dataType : String
  mode : String
  ordinal : Int
  deriving DecidableEq, Repr

/-- Parameter definitions and return type of one routine (part_005
lines 44-48). -/
structure RoutineInfo where
  name : String
  params : List RoutineParam
  returnType : String
  deriving DecidableEq, Repr

/-- Character-wise lowering of a string. -/
def strLower (s : String) : String := String.mk (s.data.map Char.toLower)

/-- Go `strings.EqualFold`, modelled as case-folded equality. -/
def goEqualFold (a b : String) : Bool := strLower a == strLower b

/-- The outcome of the pre-execution part of `CallFunction`: either an
error returned before any connection, transaction or SQL statement, or the
call query and bound arguments handed to `handleTransaction`. -/
inductive CallOutcome where
  | failed (msg : String)
  | exec (query : String) (args : List GoValue)
  deriving DecidableEq, Repr

/-- The first loop of `CallFunction` (part_005 lines 511-518): walk the
sorted parameters, look each name up in the argument map by exact key, and
collect the bound arguments; a parameter with no exact-key entry aborts. -/
def collectArgs (data : List (String × GoValue)) :
    List RoutineParam → Except String (List GoValue)
  | [] => .ok []
  | p :: ps =>
    match lookupAssoc data p.name with
    | none => .error ("missing required argument: " ++ p.name)
    | some v =>
      match collectArgs data ps with
      | .error e => .error e
      | .ok vs => .ok (v :: vs)

/-- The second loop of `CallFunction` (part_005 lines 520-531): each
argument-map key must match some declared parameter name case-insensitively
(`strings.EqualFold`); the first unmatched key is reported. -/
def findExtra (ps : List RoutineParam) :
    List (String × GoValue) → Option String
  | [] => none
  | (k, _) :: rest =>
      if ps.any (fun rp => goEqualFold rp.name k) then findExtra ps rest
      else some k

/-- Go `sort.Slice` on the parameter list with less-than on ordinals
(part_005 lines 506-508), realized as a sort. -/
def sortParams (ps : List RoutineParam) : List RoutineParam :=
  List.insertionSort (fun a b => a.ordinal ≤ b.ordinal) ps

/-- The pre-execution part of `CallFunction` (part_005 lines 501-537):
catalog lookup, argument validation against the declared parameters, and
construction of the call query (`SELECT name(...) AS result` for functions,
`CALL name(...)` for procedures).  `CallOutcome.failed` is returned before
the code touches the database; only `CallOutcome.exec` reaches
`handleTransaction`. -/
def callFunctionPlan (routines : List (String × RoutineInfo))
    (funcName : String) (data : List (String × GoValue)) : CallOutcome :=
  match lookupAssoc routines funcName with
  | none => .failed ("routine " ++ funcName ++ " not found")
  | some rInfo =>
    let sorted := sortParams rInfo.params
    match collectArgs data sorted with
    | .error e => .failed e
    | .ok callArgs =>
      match findExtra sorted data with
      | some k => .failed ("unexpected argument: " ++ k)
      | none =>
        let phs := goJoin ", " (sorted.map (fun _ => "?"))
        if rInfo.returnType ≠ "" then
          .exec ("SELECT " ++ funcName ++ "(" ++ phs ++ ") AS result")
            callArgs
        else
          .exec ("CALL " ++ funcName ++ "(" ++ phs ++ ")") callArgs

/-- Modelled from the spec claim (a refinement comparison definition, not
from the source): the rejection condition as claim C4 states it, with
parameter-name matching case-insensitive in BOTH checks — some declared
parameter has no case-insensitive match among the argument keys, or some
argument key has no case-insensitive match among the declared parameters. -/
def claimedMismatch (params : List RoutineParam)
    (data : List (String × GoValue)) : Bool :=
  params.any (fun p => !(data.any (fun kv => goEqualFold kv.fst p.name)))
  || data.any (fun kv => !(params.any (fun p => goEqualFold p.name kv.fst)))

/-- The rejection condition actually implemented by `CallFunction`: the
missing-parameter check matches argument keys EXACTLY (part_005 line 513,
`data[param.Name]`), while the extra-argument check matches parameter names
case-insensitively (part_005 line 523, `strings.EqualFold`). -/
def actualMismatch (params : List RoutineParam)
    (data : List (String × GoValue)) : Bool :=
  params.any (fun p => (lookupAssoc data p.name).isNone)
  || data.any (fun kv => !(params.any (fun p => goEqualFold p.name kv.fst)))

/-- C4 counterexample: a routine with one declared parameter "Foo" called
with the single argument key "foo".  Under the claim's case-insensitive
matching nothing is missing and nothing is extra, so the claim predicts the
call proceeds; the code rejects it with "missing required argument: Foo"
because the missing-parameter lookup is exact. -/
theorem callFunction_case_fold_counterexample :
    claimedMismatch [⟨"Foo", "text", "IN", 1⟩] [("foo", GoValue.vStr "x")]
      = false
  ∧ callFunctionPlan [("f", ⟨"f", [⟨"Foo", "text", "IN", 1⟩], "text"⟩)]
      "f" [("foo", GoValue.vStr "x")]
      = .failed "missing required argument: Foo" := by
  constructor
  · decide
  · decide

theorem collectArgs_error_iff (data : List (String × GoValue)) :
    ∀ ps : List RoutineParam,
      (∃ e, collectArgs data ps = .error e)
        ↔ ∃ p ∈ ps, lookupAssoc data p.name = none := by
  intro ps
  induction ps with
  | nil => simp [collectArgs]
  | cons p ps ih =>
    cases hl : lookupAssoc data p.name with
    | none =>
        simp only [collectArgs, hl]
        constructor
        · intro _; exact ⟨p, List.mem_cons_self p ps, hl⟩
        · intro _; exact ⟨"missing required argument: " ++ p.name, rfl⟩
    | some v =>
        cases hc : collectArgs data ps with
        | error e =>
            simp only [collectArgs, hl, hc]
            constructor
            · intro _
              obtain ⟨q, hq, hqn⟩ := ih.mp ⟨e, hc⟩
              exact ⟨q, List.mem_cons_of_mem p hq, hqn⟩
            · intro _; exact ⟨e, rfl⟩
        | ok vs =>
            simp only [collectArgs, hl, hc]
            constructor
            · rintro ⟨e, he⟩; cases he
            · rintro ⟨q, hq, hqn⟩
              rcases List.mem_cons.mp hq with rfl | hq2
              · rw [hl] at hqn; cases hqn
              · obtain ⟨e, he⟩ := ih.mpr ⟨q, hq2, hqn⟩
                rw [hc] at he; cases he

theorem findExtra_none_iff (ps : List RoutineParam) :
    ∀ data : List (String × GoValue),
      findExtra ps data = none
        ↔ ∀ kv ∈ data, ps.any (fun rp => goEqualFold rp.name kv.fst)
            = true := by
  intro data
  induction data with
  | nil => simp [findExtra]
  | cons kv rest ih =>
    obtain ⟨k, v⟩ := kv
    by_cases hm : ps.any (fun rp => goEqualFold rp.name k) = true
    · simp only [findExtra, if_pos hm, ih]
      constructor
      · intro h kv2 hkv2
        rcases List.mem_cons.mp hkv2 with rfl | h2
        · exact hm
        · exact h kv2 h2
      · intro h kv2 hkv2
        exact h kv2 (List.mem_cons_of_mem _ hkv2)
    · simp only [findExtra, if_neg hm]
      constructor
      · intro h; cases h
      · intro h
        exact absurd (h (k, v) (List.mem_cons_self _ _)) hm

/-- C4 amended: `CallFunction` with a known routine rejects the call before
any connection, transaction or SQL statement exactly when some declared
parameter has no EXACT-match key in the argument map or the argument map
contains a key with no case-insensitive match among the declared
parameters (the missing-parameter check is case-sensitive; only the
extra-argument check is case-insensitive). -/
theorem callFunction_validation (routines : List (String × RoutineInfo))
    (funcName : String) (rInfo : RoutineInfo)
    (data : List (String × GoValue))
    (hfind : lookupAssoc routines funcName = some rInfo) :
    (∃ msg, callFunctionPlan routines funcName data = .failed msg)
      ↔ actualMismatch rInfo.params data = true := by
  have hperm : List.Perm (sortParams rInfo.params) rInfo.params :=
    List.perm_insertionSort _ _
  have hmem : ∀ p : RoutineParam,
      p ∈ sortParams rInfo.params ↔ p ∈ rInfo.params :=
    fun p => hperm.mem_iff
  have hanyEq : ∀ f : RoutineParam → Bool,
      (sortParams rInfo.params).any f = rInfo.params.any f := by
    intro f
    cases h1 : (sortParams rInfo.params).any f with
    | true =>
        obtain ⟨p, hp, hf⟩ := List.any_eq_true.mp h1
        exact (List.any_eq_true.mpr ⟨p, (hmem p).mp hp, hf⟩).symm
    | false =>
        cases h2 : rInfo.params.any f with
        | true =>
            obtain ⟨p, hp, hf⟩ := List.any_eq_true.mp h2
            have := List.any_eq_true.mpr ⟨p, (hmem p).mpr hp, hf⟩
            rw [h1] at this; cases this
        | false => rfl
  simp only [callFunctionPlan, hfind, actualMismatch]
  cases hca : collectArgs data (sortParams rInfo.params) with
  | error e =>
      simp only
      constructor
      · intro _
        obtain ⟨p, hp, hpn⟩ := (collectArgs_error_iff data _).mp ⟨e, hca⟩
        refine Bool.or_eq_true _ _ |>.mpr (Or.inl ?_)
        rw [← hanyEq]
        exact List.any_eq_true.mpr ⟨p, hp, by simp [hpn]⟩
      · intro _; exact ⟨e, rfl⟩
  | ok callArgs =>
      cases hfe : findExtra (sortParams rInfo.params) data with
      | some k =>
          simp only
          constructor
          · intro _
            refine Bool.or_eq_true _ _ |>.mpr (Or.inr ?_)
            by_contra hall
            have hnone : findExtra (sortParams rInfo.params) data = none := by
              rw [findExtra_none_iff]
              intro kv hkv
              by_contra hx
              refine hall (List.any_eq_true.mpr ⟨kv, hkv, ?_⟩)
              simp only [Bool.not_eq_true] at hx
              have hx2 : rInfo.params.any
                  (fun p => goEqualFold p.name kv.fst) = false :=
                (hanyEq _).symm.trans hx
              rw [hx2]
              rfl
            rw [hfe] at hnone; cases hnone
          · intro _; exact ⟨"unexpected argument: " ++ k, rfl⟩
      | none =>
          constructor
          · intro hmsg
            by_cases hrt : rInfo.returnType ≠ ""
            · simp only [if_pos hrt] at hmsg
              obtain ⟨msg, hm⟩ := hmsg; cases hm
            · simp only [if_neg hrt] at hmsg
              obtain ⟨msg, hm⟩ := hmsg; cases hm
          · intro hmis
            exfalso
            rcases Bool.or_eq_true _ _ |>.mp hmis with h1 | h2
            · obtain ⟨p, hp, hpn⟩ := List.any_eq_true.mp h1
              have : ∃ e, collectArgs data (sortParams rInfo.params)
                  = .error e := by
                refine (collectArgs_error_iff data _).mpr
                  ⟨p, (hmem p).mpr hp, ?_⟩
                simpa using hpn
              obtain ⟨e, he⟩ := this
              rw [hca] at he; cases he
            · obtain ⟨kv, hkv, hn⟩ := List.any_eq_true.mp h2
              have hall := (findExtra_none_iff _ data).mp hfe kv hkv
              have hall2 : rInfo.params.any
                  (fun p => goEqualFold p.name kv.fst) = true :=
                (hanyEq _).symm.trans hall
              rw [hall2] at hn
              simp at hn

/-- Witness for C4 amended: a routine with parameter "Foo" called with
only the unrelated key "bar" is rejected; the mismatch condition holds. -/
theorem callFunction_validation_witness :
    lookupAssoc [("f", RoutineInfo.mk "f" [⟨"Foo", "text", "IN", 1⟩] "text")]
      "f" = some (RoutineInfo.mk "f" [⟨"Foo", "text", "IN", 1⟩] "text")
  ∧ ((∃ msg, callFunctionPlan
        [("f", RoutineInfo.mk "f" [⟨"Foo", "text", "IN", 1⟩] "text")] "f"
        [("bar", GoValue.vInt 7)] = .failed msg)
      ↔ actualMismatch [⟨"Foo", "text", "IN", 1⟩] [("bar", GoValue.vInt 7)]
          = true)
  ∧ actualMismatch [⟨"Foo", "text", "IN", 1⟩] [("bar", GoValue.vInt 7)]
      = true :=
  ⟨rfl,
   callFunction_validation
     [("f", RoutineInfo.mk "f" [⟨"Foo", "text", "IN", 1⟩] "text")] "f"
     (RoutineInfo.mk "f" [⟨"Foo", "text", "IN", 1⟩] "text")
     [("bar", GoValue.vInt 7)] (by decide),
   by decide⟩

/-- C9: a routine name absent from the loaded catalog makes `CallFunction`
return a "routine <name> not found" error immediately, for every argument
map, before any connection, transaction or SQL statement. -/
theorem callFunction_unknown_routine (routines : List (String × RoutineInfo))
    (funcName : String) (data : List (String × GoValue))
    (h : lookupAssoc routines funcName = none) :
    callFunctionPlan routines funcName data
      = .failed ("routine " ++ funcName ++ " not found") := by
  simp [callFunctionPlan, h]

/-- Witness for C9: calling "nope" against an empty catalog. -/
theorem callFunction_unknown_routine_witness :
    lookupAssoc ([] : List (String × RoutineInfo)) "nope" = none
  ∧ callFunctionPlan [] "nope" [("x", GoValue.vInt 1)]
      = .failed "routine nope not found" :=
  ⟨rfl, by
    have h := callFunction_unknown_routine [] "nope" [("x", GoValue.vInt 1)]
      rfl
    rw [h]
    decide⟩

/-- The rewritten column reference `fmt.Sprintf("LOWER(%s)", field)`
(part_005 line 653). -/
def lowKey (f : String) : String := "LOWER(" ++ f ++ ")"

/-- A WHERE-map condition: either a direct (non-map) condition such as
`"field": "value"`, or a map from operator names to operands. -/
inductive Cond where
  | direct (v : GoValue)
  | ops (m : List (String × GoValue))
  deriving DecidableEq, Repr

/-- An operator entry that `convertILIKEtoLower` rewrites: its name folds
to ILIKE and its operand is a string. -/
def isStrILIKE (e : String × GoValue) : Bool :=
  goEqualFold e.fst "ILIKE" &&
    (match e.snd with | GoValue.vStr _ => true | _ => false)

/-- The loop over one field's operator map in `convertILIKEtoLower`
(part_005 lines 647-664), threading the Go locals: the result map being
built, the `newConditions` map of operators kept under the original field,
and the `foundILIKE` flag. -/
def ilikeLoop (field : String) :
    List (String × GoValue) →
    List (String × Cond) × List (String × GoValue) × Bool →
    List (String × Cond) × List (String × GoValue) × Bool
  | [], st => st
  | (op, operand) :: rest, (result, newConds, found) =>
      if goEqualFold op "ILIKE" then
        match operand with
        | GoValue.vStr s =>
            ilikeLoop field rest
              (mapSet result (lowKey field)
                (Cond.ops [("LIKE", GoValue.vStr (strLower s))]),
               newConds, true)
        | v => ilikeLoop field rest (result, mapSet newConds op v, found)
      else
        ilikeLoop field rest (result, mapSet newConds op operand, found)

/-- Processing of one field of the WHERE map by `convertILIKEtoLower`
(part_005 lines 640-679): non-map conditions pass through; operator maps go
through `ilikeLoop`, then the kept operators (if any) are stored under the
original field name, and a map that had no rewrite and no kept operators is
stored back unchanged. -/
def convertField (result : List (String × Cond)) (field : String) :
    Cond → List (String × Cond)
  | .direct v => mapSet result field (.direct v)
  | .ops m =>
      match ilikeLoop field m (result, [], false) with
      | (result1, newConds, found) =>
          if newConds ≠ [] then mapSet result1 field (.ops newConds)
          else if !found then mapSet result1 field (.ops m)
          else result1

/-- `convertILIKEtoLower` (part_005 lines 635-682). -/
def convertILIKEtoLower (whereMap : List (String × Cond)) :
    List (String × Cond) :=
  whereMap.foldl (fun r e => convertField r e.fst e.snd) []

/-- The SELECT text assembled by `TableGet` (part_005 lines 688-719) around
the compiled WHERE clause: SELECT, FROM, WHERE, GROUP BY, ORDER BY, LIMIT,
OFFSET, with the empty-field-list, empty-list and non-positive omissions of
the source. -/
def tableGetQuery (selectFields : List String) (table : String)
    (whereClause : String) (groupBy ordering : List String)
    (limit offset : Int) : String :=
  "SELECT "
  ++ (if selectFields.length > 0 then goJoin ", " selectFields else "*")
  ++ " FROM " ++ table
  ++ whereClause
  ++ (if groupBy.length > 0 then " GROUP BY " ++ goJoin ", " groupBy else "")
  ++ (if ordering.length > 0 then " ORDER BY " ++ goJoin ", " ordering
      else "")
  ++ (if limit > 0 then " LIMIT " ++ toString limit else "")
  ++ (if offset > 0 then " OFFSET " ++ toString offset else "")

/-- `TableGet` up to query construction (part_005 lines 685-719): the WHERE
map is rewritten by `convertILIKEtoLower`, compiled by the external
collaborator `easyrest.BuildWhereClauseSorted` (the `buildWhere`
parameter), and the query text is assembled around the resulting clause. -/
def tableGet
    (buildWhere : List (String × Cond) → Except String (String × List GoValue))
    (selectFields : List String) (table : String)
    (whereMap : List (String × Cond)) (groupBy ordering : List String)
    (limit offset : Int) : Except String (String × List GoValue) :=
  match buildWhere (convertILIKEtoLower whereMap) with
  | .error e => .error ("failed to build WHERE: " ++ e)
  | .ok (whereClause, args) =>
      .ok (tableGetQuery selectFields table whereClause groupBy ordering
        limit offset, args)

theorem hasKey_append {α : Type} (l₁ l₂ : List (String × α)) (k : String) :
    hasKey (l₁ ++ l₂) k = (hasKey l₁ k || hasKey l₂ k) := by
  simp [hasKey, List.any_append]

theorem hasKey_false_entries {α : Type} {l : List (String × α)} {k : String}
    (h : hasKey l k = false) : ∀ kv ∈ l, kv.fst ≠ k := by
  have h2 : ∀ (a : String) (b : α), (a, b) ∈ l → ¬ a = k := by
    simpa [hasKey] using h
  intro kv hkv
  exact h2 kv.fst kv.snd hkv

theorem hasKey_of_entries {α : Type} {l : List (String × α)} {k : String}
    (h : ∀ kv ∈ l, kv.fst ≠ k) : hasKey l k = false := by
  cases hh : hasKey l k with
  | false => rfl
  | true =>
      exfalso
      have hex : ∃ x, (k, x) ∈ l := by simpa [hasKey] using hh
      obtain ⟨x, hx⟩ := hex
      exact h (k, x) hx rfl

theorem mapSet_fresh {α : Type} {m : List (String × α)} {k : String}
    (v : α) (h : hasKey m k = false) : mapSet m k v = m ++ [(k, v)] := by
  simp [mapSet, h]

theorem mapSet_append_fresh {α : Type} {r : List (String × α)} {k : String}
    (seg : List (String × α)) (v : α) (h : hasKey r k = false) :
    mapSet (r ++ seg) k v = r ++ mapSet seg k v := by
  have hent := hasKey_false_entries h
  by_cases hs : hasKey seg k = true
  · have hall : hasKey (r ++ seg) k = true := by
      rw [hasKey_append, h, hs]; rfl
    simp only [mapSet]
    rw [if_pos hall, if_pos hs, List.map_append]
    have hmap : ∀ (r2 : List (String × α)), (∀ kv ∈ r2, kv.fst ≠ k) →
        List.map (fun kv => if kv.fst = k then (k, v) else kv) r2 = r2 := by
      intro r2
      induction r2 with
      | nil => intro _; rfl
      | cons e rest ih =>
          intro hr
          simp only [List.map_cons]
          rw [if_neg (hr e (List.mem_cons_self _ _)),
            ih (fun kv hkv => hr kv (List.mem_cons_of_mem _ hkv))]
    rw [hmap r hent]
  · have hs2 : hasKey seg k = false := by
      cases h2 : hasKey seg k with
      | true => exact absurd h2 hs
      | false => rfl
    have hall : hasKey (r ++ seg) k = false := by
      rw [hasKey_append, h, hs2]; rfl
    simp only [mapSet]
    rw [if_neg (by simp [hall]), if_neg (by simp [hs2]),
      List.append_assoc]

theorem mapSet_mem {α : Type} {m : List (String × α)} {k : String} {v : α}
    {kv : String × α} (h : kv ∈ mapSet m k v) : kv ∈ m ∨ kv = (k, v) := by
  by_cases hk : hasKey m k = true
  · simp only [mapSet, hk, if_pos rfl] at h
    obtain ⟨e, he, heq⟩ := List.mem_map.mp h
    by_cases hef : e.fst = k
    · rw [if_pos hef] at heq
      exact Or.inr heq.symm
    · rw [if_neg hef] at heq
      exact Or.inl (heq ▸ he)
  · have hk2 : hasKey m k = false := by
      cases h2 : hasKey m k with
      | true => exact absurd h2 hk
      | false => rfl
    rw [mapSet_fresh v hk2] at h
    rcases List.mem_append.mp h with h1 | h2
    · exact Or.inl h1
    · exact Or.inr (List.mem_singleton.mp h2)

theorem lookupAssoc_append_left_none {α : Type} {l₁ : List (String × α)}
    (l₂ : List (String × α)) {k : String} (h : hasKey l₁ k = false) :
    lookupAssoc (l₁ ++ l₂) k = lookupAssoc l₂ k := by
  induction l₁ with
  | nil => rfl
  | cons e rest ih =>
      obtain ⟨k1, v1⟩ := e
      have h1 : k1 ≠ k := hasKey_false_entries h (k1, v1) (List.mem_cons_self _ _)
      have h2 : hasKey rest k = false := by
        apply hasKey_of_entries
        intro kv hkv
        exact hasKey_false_entries h kv (List.mem_cons_of_mem _ hkv)
      simpa [lookupAssoc, h1] using ih h2

theorem lookupAssoc_none_of_hasKey_false {α : Type} {l : List (String × α)}
    {k : String} (h : hasKey l k = false) : lookupAssoc l k = none := by
  induction l with
  | nil => rfl
  | cons e rest ih =>
      obtain ⟨k1, v1⟩ := e
      have h1 : k1 ≠ k := hasKey_false_entries h (k1, v1) (List.mem_cons_self _ _)
      have h2 : hasKey rest k = false := by
        apply hasKey_of_entries
        intro kv hkv
        exact hasKey_false_entries h kv (List.mem_cons_of_mem _ hkv)
      simpa [lookupAssoc, h1] using ih h2

theorem lowKey_ne (f : String) : lowKey f ≠ f := by
  intro h
  have hlen := congrArg String.length h
  rw [lowKey, String.length_append, String.length_append] at hlen
  have h6 : ("LOWER(" : String).length = 6 := rfl
  have h1 : (")" : String).length = 1 := rfl
  omega

theorem lowKey_inj {a b : String} (h : lowKey a = lowKey b) : a = b := by
  have hd := congrArg String.data h
  simp only [lowKey, String.data_append] at hd
  have h1 := List.append_cancel_right hd
  have h2 := List.append_cancel_left h1
  exact String.ext h2

theorem ilikeLoop_cons_keep (f op1 : String) (v1 : GoValue)
    (rest : List (String × GoValue)) (racc : List (String × Cond))
    (nc : List (String × GoValue)) (b : Bool)
    (hfalse : isStrILIKE (op1, v1) = false) :
    ilikeLoop f ((op1, v1) :: rest) (racc, nc, b)
      = ilikeLoop f rest (racc, mapSet nc op1 v1, b) := by
  by_cases hop : goEqualFold op1 "ILIKE" = true
  · cases v1 with
    | vStr s => simp [isStrILIKE, hop] at hfalse
    | vInt n => simp [ilikeLoop, hop]
    | vBool b2 => simp [ilikeLoop, hop]
    | vNull => simp [ilikeLoop, hop]
  · simp [ilikeLoop, hop]

theorem ilikeLoop_keep (f : String) (m : List (String × GoValue)) :
    ∀ (racc : List (String × Cond)) (nc : List (String × GoValue)) (b : Bool),
      (∀ e ∈ m, isStrILIKE e = false) →
      (∀ e ∈ m, hasKey nc e.fst = false) →
      (m.map Prod.fst).Nodup →
      ilikeLoop f m (racc, nc, b) = (racc, nc ++ m, b) := by
  induction m with
  | nil => intro racc nc b _ _ _; simp [ilikeLoop]
  | cons e rest ih =>
      intro racc nc b hfalse hnc hnodup
      obtain ⟨op1, v1⟩ := e
      rw [ilikeLoop_cons_keep f op1 v1 rest racc nc b
        (hfalse (op1, v1) (List.mem_cons_self _ _))]
      rw [mapSet_fresh v1 (hnc (op1, v1) (List.mem_cons_self _ _))]
      rw [ih (racc) (nc ++ [(op1, v1)]) b
        (fun e he => hfalse e (List.mem_cons_of_mem _ he))
        ?_ (by simpa using hnodup.sublist (List.sublist_cons_self _ _))]
      · simp
      · intro e he
        rw [hasKey_append]
        rw [hnc e (List.mem_cons_of_mem _ he)]
        have hne : op1 ≠ e.fst := by
          intro hcontra
          have : e.fst ∈ rest.map Prod.fst := List.mem_map_of_mem _ he
          rw [← hcontra] at this
          exact (List.nodup_cons.mp (by simpa using hnodup)).1 this
        simp [hasKey, hne]

theorem ilikeLoop_one (f op : String) (s : String)
    (m2 : List (String × GoValue)) :
    ∀ (m1 : List (String × GoValue)) (racc : List (String × Cond))
      (nc : List (String × GoValue)) (b : Bool),
      (∀ e ∈ m1, isStrILIKE e = false) →
      (∀ e ∈ m2, isStrILIKE e = false) →
      goEqualFold op "ILIKE" = true →
      ((m1 ++ (op, GoValue.vStr s) :: m2).map Prod.fst).Nodup →
      (∀ e ∈ m1 ++ (op, GoValue.vStr s) :: m2, hasKey nc e.fst = false) →
      hasKey racc (lowKey f) = false →
      ilikeLoop f (m1 ++ (op, GoValue.vStr s) :: m2) (racc, nc, b)
        = (racc ++ [(lowKey f,
            Cond.ops [("LIKE", GoValue.vStr (strLower s))])],
           nc ++ (m1 ++ m2), true) := by
  intro m1
  induction m1 with
  | nil =>
      intro racc nc b _ h2 hop hnodup hnc hracc
      simp only [List.nil_append]
      show ilikeLoop f ((op, GoValue.vStr s) :: m2) (racc, nc, b) = _
      simp only [ilikeLoop, if_pos hop]
      rw [mapSet_fresh _ hracc]
      rw [ilikeLoop_keep f m2 _ nc true h2
        (fun e he => hnc e (List.mem_cons_of_mem _ he))
        (by simpa using hnodup.sublist (List.sublist_cons_self _ _))]
  | cons e1 m1t ih =>
      intro racc nc b h1 h2 hop hnodup hnc hracc
      obtain ⟨op1, v1⟩ := e1
      rw [List.cons_append]
      rw [ilikeLoop_cons_keep f op1 v1 _ racc nc b
        (h1 (op1, v1) (List.mem_cons_self _ _))]
      rw [mapSet_fresh v1 (hnc (op1, v1) (List.mem_cons_self _ _))]
      rw [ih racc (nc ++ [(op1, v1)]) b
        (fun e he => h1 e (List.mem_cons_of_mem _ he)) h2 hop
        (by simpa using hnodup.sublist (List.sublist_cons_self _ _)) ?_ hracc]
      · simp
      · intro e he
        rw [hasKey_append]
        rw [hnc e (List.mem_cons_of_mem _ he)]
        have hne : op1 ≠ e.fst := by
          intro hcontra
          have : e.fst ∈ (m1t ++ (op, GoValue.vStr s) :: m2).map Prod.fst :=
            List.mem_map_of_mem _ he
          rw [← hcontra] at this
          exact (List.nodup_cons.mp (by simpa using hnodup)).1 this
        simp [hasKey, hne]

theorem ilikeLoop_shift (f : String) (m : List (String × GoValue)) :
    ∀ (r racc : List (String × Cond)) (nc : List (String × GoValue))
      (b : Bool), hasKey r (lowKey f) = false →
      ilikeLoop f m (r ++ racc, nc, b)
        = ((r ++ (ilikeLoop f m (racc, nc, b)).1,
            (ilikeLoop f m (racc, nc, b)).2.1,
            (ilikeLoop f m (racc, nc, b)).2.2)) := by
  induction m with
  | nil => intro r racc nc b _; simp [ilikeLoop]
  | cons e rest ih =>
      intro r racc nc b hfr
      obtain ⟨op1, v1⟩ := e
      by_cases hop : goEqualFold op1 "ILIKE" = true
      · cases v1 with
        | vStr s =>
            simp only [ilikeLoop, if_pos hop]
            rw [mapSet_append_fresh _ _ hfr]
            exact ih r _ nc true hfr
        | vInt n =>
            simp only [ilikeLoop, if_pos hop]
            exact ih r racc _ b hfr
        | vBool b2 =>
            simp only [ilikeLoop, if_pos hop]
            exact ih r racc _ b hfr
        | vNull =>
            simp only [ilikeLoop, if_pos hop]
            exact ih r racc _ b hfr
      · simp only [ilikeLoop, if_neg hop]
        exact ih r racc _ b hfr

theorem ilikeLoop_res_keys (f : String) (m : List (String × GoValue)) :
    ∀ (racc : List (String × Cond)) (nc : List (String × GoValue))
      (b : Bool) (kv : String × Cond),
      kv ∈ (ilikeLoop f m (racc, nc, b)).1 →
      kv ∈ racc ∨ kv.fst = lowKey f := by
  induction m with
  | nil => intro racc nc b kv h; exact Or.inl (by simpa [ilikeLoop] using h)
  | cons e rest ih =>
      intro racc nc b kv h
      obtain ⟨op1, v1⟩ := e
      by_cases hop : goEqualFold op1 "ILIKE" = true
      · cases v1 with
        | vStr s =>
            simp only [ilikeLoop, if_pos hop] at h
            rcases ih _ _ _ kv h with hmem | hlow
            · rcases mapSet_mem hmem with h1 | h2
              · exact Or.inl h1
              · exact Or.inr (by rw [h2])
            · exact Or.inr hlow
        | vInt n =>
            simp only [ilikeLoop, if_pos hop] at h
            exact ih _ _ _ kv h
        | vBool b2 =>
            simp only [ilikeLoop, if_pos hop] at h
            exact ih _ _ _ kv h
        | vNull =>
            simp only [ilikeLoop, if_pos hop] at h
            exact ih _ _ _ kv h
      · simp only [ilikeLoop, if_neg hop] at h
        exact ih _ _ _ kv h

theorem convertField_shift (r : List (String × Cond)) (f : String)
    (c : Cond) (hf : hasKey r f = false)
    (hl : hasKey r (lowKey f) = false) :
    convertField r f c = r ++ convertField [] f c := by
  cases c with
  | direct v =>
      show mapSet r f (Cond.direct v) = r ++ mapSet [] f (Cond.direct v)
      rw [mapSet_fresh _ hf]
      rfl
  | ops m =>
      have hshift := ilikeLoop_shift f m r [] [] false hl
      rw [List.append_nil] at hshift
      rcases ht : ilikeLoop f m ([], [], false) with ⟨r1, nc1, fd1⟩
      rw [ht] at hshift
      simp only at hshift
      simp only [convertField, hshift, ht]
      split_ifs with h1 h2
      · exact mapSet_append_fresh _ _ hf
      · exact mapSet_append_fresh _ _ hf
      · rfl

theorem convertField_ops_none (f : String) (m : List (String × GoValue))
    (h : ∀ e ∈ m, isStrILIKE e = false) (hnodup : (m.map Prod.fst).Nodup) :
    convertField [] f (.ops m) = [(f, Cond.ops m)] := by
  have hk := ilikeLoop_keep f m [] [] false h (fun e he => rfl) hnodup
  simp only [convertField, hk, List.nil_append]
  by_cases hm : m = []
  · subst hm
    simp [mapSet, hasKey]
  · rw [if_pos (by simpa using hm)]
    simp [mapSet, hasKey]

theorem convertField_ops_one (f op s : String)
    (m1 m2 : List (String × GoValue))
    (h1 : ∀ e ∈ m1, isStrILIKE e = false)
    (h2 : ∀ e ∈ m2, isStrILIKE e = false)
    (hop : goEqualFold op "ILIKE" = true)
    (hnodup : ((m1 ++ (op, GoValue.vStr s) :: m2).map Prod.fst).Nodup) :
    convertField [] f (.ops (m1 ++ (op, GoValue.vStr s) :: m2))
      = (lowKey f, Cond.ops [("LIKE", GoValue.vStr (strLower s))]) ::
        (if m1 ++ m2 = [] then []
         else [(f, Cond.ops (m1 ++ m2))]) := by
  have hone := ilikeLoop_one f op s m2 m1 [] [] false h1 h2 hop hnodup
    (fun e he => rfl) rfl
  simp only [convertField, hone, List.nil_append]
  by_cases hm : m1 ++ m2 = []
  · rw [if_neg (by simpa using hm), if_pos hm]
    simp
  · rw [if_pos (by simpa using hm), if_neg hm]
    rw [mapSet_fresh _ (by simp [hasKey, lowKey_ne f])]
    rfl

theorem convertField_keys (f : String) (c : Cond) :
    ∀ kv ∈ convertField [] f c, kv.fst = f ∨ kv.fst = lowKey f := by
  intro kv h
  cases c with
  | direct v =>
      have hm : kv ∈ mapSet [] f (Cond.direct v) := h
      rcases mapSet_mem hm with h1 | h2
      · exact absurd h1 (List.not_mem_nil kv)
      · exact Or.inl (by rw [h2])
  | ops m =>
      rcases ht : ilikeLoop f m ([], [], false) with ⟨r1, nc1, fd1⟩
      have hr1 : ∀ kv2 ∈ r1, kv2.fst = lowKey f := by
        intro kv2 hkv2
        rcases ilikeLoop_res_keys f m [] [] false kv2
            (by rw [ht]; exact hkv2) with hmem | hlow
        · exact absurd hmem (List.not_mem_nil kv2)
        · exact hlow
      simp only [convertField, ht] at h
      split_ifs at h with ha hb
      · rcases mapSet_mem h with h1 | h2
        · exact Or.inr (hr1 kv h1)
        · exact Or.inl (by rw [h2])
      · rcases mapSet_mem h with h1 | h2
        · exact Or.inr (hr1 kv h1)
        · exact Or.inl (by rw [h2])
      · exact Or.inr (hr1 kv h)

/-- Key-collision freedom between two WHERE-map fields: their original
keys and their rewritten `LOWER(...)` keys are pairwise distinct. -/
def sepRel (e e2 : String × Cond) : Prop :=
  e.fst ≠ e2.fst ∧ lowKey e.fst ≠ e2.fst ∧ e.fst ≠ lowKey e2.fst
    ∧ lowKey e.fst ≠ lowKey e2.fst

theorem hasKey_seg_false (f2 : String) (c2 : Cond) (k : String)
    (h1 : k ≠ f2) (h2 : k ≠ lowKey f2) :
    hasKey (convertField [] f2 c2) k = false := by
  apply hasKey_of_entries
  intro kv hkv
  rcases convertField_keys f2 c2 kv hkv with hf | hl
  · intro heq
    exact h1 (by rw [← heq, hf])
  · intro heq
    exact h2 (by rw [← heq, hl])

/-- The per-field output segments of `convertILIKEtoLower`. -/
def whereSegs (wm : List (String × Cond)) : List (List (String × Cond)) :=
  wm.map (fun e => convertField [] e.fst e.snd)

theorem convertFold_flatten (wm : List (String × Cond)) :
    ∀ r : List (String × Cond),
      (∀ e ∈ wm, hasKey r e.fst = false
        ∧ hasKey r (lowKey e.fst) = false) →
      List.Pairwise sepRel wm →
      List.foldl (fun acc e => convertField acc e.fst e.snd) r wm
        = r ++ (whereSegs wm).flatten := by
  induction wm with
  | nil => intro r _ _; simp [whereSegs]
  | cons e rest ih =>
      intro r hfresh hpw
      obtain ⟨hre, hrl⟩ := hfresh e (List.mem_cons_self _ _)
      rw [List.foldl_cons, convertField_shift r e.fst e.snd hre hrl]
      rw [ih (r ++ convertField [] e.fst e.snd) ?_
        (List.pairwise_cons.mp hpw).2]
      · simp [whereSegs, List.append_assoc]
      · intro e2 he2
        obtain ⟨hf2, hl2⟩ := hfresh e2 (List.mem_cons_of_mem _ he2)
        have hsep := (List.pairwise_cons.mp hpw).1 e2 he2
        constructor
        · rw [hasKey_append, hf2,
            hasKey_seg_false e.fst e.snd e2.fst (Ne.symm hsep.1)
              (Ne.symm hsep.2.1)]
          rfl
        · rw [hasKey_append, hl2,
            hasKey_seg_false e.fst e.snd (lowKey e2.fst)
              (Ne.symm hsep.2.2.1) (Ne.symm hsep.2.2.2)]
          rfl

theorem convertILIKE_eq_flatten (wm : List (String × Cond))
    (hpw : List.Pairwise sepRel wm) :
    convertILIKEtoLower wm = (whereSegs wm).flatten := by
  have h := convertFold_flatten wm [] (fun e he => ⟨rfl, rfl⟩) hpw
  simpa [convertILIKEtoLower] using h

theorem hasKey_flatten_false (ws : List (String × Cond)) (k : String)
    (h : ∀ e ∈ ws, k ≠ e.fst ∧ k ≠ lowKey e.fst) :
    hasKey (whereSegs ws).flatten k = false := by
  induction ws with
  | nil => rfl
  | cons e rest ih =>
      have hstep : whereSegs (e :: rest)
          = convertField [] e.fst e.snd :: whereSegs rest := rfl
      rw [hstep, List.flatten_cons, hasKey_append]
      rw [hasKey_seg_false e.fst e.snd k
        (h e (List.mem_cons_self _ _)).1 (h e (List.mem_cons_self _ _)).2]
      rw [ih (fun e2 he2 => h e2 (List.mem_cons_of_mem _ he2))]
      rfl

theorem lookupAssoc_append {α : Type} (l₁ l₂ : List (String × α))
    (k : String) :
    lookupAssoc (l₁ ++ l₂) k =
      match lookupAssoc l₁ k with
      | some v => some v
      | none => lookupAssoc l₂ k := by
  induction l₁ with
  | nil => rfl
  | cons e rest ih =>
      obtain ⟨k1, v1⟩ := e
      by_cases h : k1 = k <;> simp [lookupAssoc, h, ih]

theorem lookup_designated (wm : List (String × Cond))
    (hpw : List.Pairwise sepRel wm) (f : String) (c : Cond)
    (hmem : (f, c) ∈ wm) (k : String) (hk : k = f ∨ k = lowKey f) :
    lookupAssoc (convertILIKEtoLower wm) k
      = lookupAssoc (convertField [] f c) k := by
  obtain ⟨w1, w2, hdec⟩ := List.append_of_mem hmem
  subst hdec
  have hw1 : ∀ e2 ∈ w1, sepRel e2 (f, c) := fun e2 he2 =>
    (List.pairwise_append.mp hpw).2.2 e2 he2 (f, c)
      (List.mem_cons_self _ _)
  have hw2 : ∀ e2 ∈ w2, sepRel (f, c) e2 :=
    (List.pairwise_cons.mp (List.pairwise_append.mp hpw).2.1).1
  have hres : convertILIKEtoLower (w1 ++ (f, c) :: w2)
      = (whereSegs w1).flatten
        ++ (convertField [] f c ++ (whereSegs w2).flatten) := by
    rw [convertILIKE_eq_flatten _ hpw]
    show ((w1 ++ (f, c) :: w2).map
      (fun e => convertField [] e.fst e.snd)).flatten = _
    rw [List.map_append, List.map_cons, List.flatten_append,
      List.flatten_cons]
    rfl
  have hskip1 : hasKey (whereSegs w1).flatten k = false := by
    apply hasKey_flatten_false
    intro e2 he2
    rcases hk with rfl | rfl
    · exact ⟨Ne.symm (hw1 e2 he2).1, Ne.symm (hw1 e2 he2).2.1⟩
    · exact ⟨Ne.symm (hw1 e2 he2).2.2.1, Ne.symm (hw1 e2 he2).2.2.2⟩
  have hskip2 : hasKey (whereSegs w2).flatten k = false := by
    apply hasKey_flatten_false
    intro e2 he2
    rcases hk with rfl | rfl
    · exact ⟨(hw2 e2 he2).1, (hw2 e2 he2).2.2.1⟩
    · exact ⟨(hw2 e2 he2).2.1, (hw2 e2 he2).2.2.2⟩
  rw [hres, lookupAssoc_append_left_none _ hskip1, lookupAssoc_append]
  cases hseg : lookupAssoc (convertField [] f c) k with
  | some v => rfl
  | none => exact lookupAssoc_none_of_hasKey_false hskip2

/-- C5: in every WHERE map (whose field keys and their `LOWER(...)` forms
do not collide), an operator folding to ILIKE with a string operand is
rewritten before where-clause compilation: the rewritten map binds
`LOWER(<field>)` to a plain LIKE on the lowered operand, the other
operators of the field stay unchanged under the original field name (absent
entirely when ILIKE was the only operator), maps without a string-ILIKE
operator and direct conditions pass through unchanged, and `TableGet`
passes exactly the rewritten map to the where-clause compiler. -/
theorem convertILIKE_rewrite (wm : List (String × Cond))
    (hpw : List.Pairwise sepRel wm) :
    (∀ (f : String) (m m1 m2 : List (String × GoValue)) (op s : String),
      (f, Cond.ops m) ∈ wm →
      m = m1 ++ (op, GoValue.vStr s) :: m2 →
      (∀ e ∈ m1, isStrILIKE e = false) →
      (∀ e ∈ m2, isStrILIKE e = false) →
      goEqualFold op "ILIKE" = true →
      (m.map Prod.fst).Nodup →
        lookupAssoc (convertILIKEtoLower wm) (lowKey f)
          = some (Cond.ops [("LIKE", GoValue.vStr (strLower s))])
        ∧ (m1 ++ m2 ≠ [] → lookupAssoc (convertILIKEtoLower wm) f
            = some (Cond.ops (m1 ++ m2)))
        ∧ (m1 ++ m2 = [] → lookupAssoc (convertILIKEtoLower wm) f = none))
  ∧ (∀ (f : String) (m : List (String × GoValue)),
      (f, Cond.ops m) ∈ wm → (∀ e ∈ m, isStrILIKE e = false) →
      (m.map Prod.fst).Nodup →
      lookupAssoc (convertILIKEtoLower wm) f = some (Cond.ops m))
  ∧ (∀ (f : String) (v : GoValue), (f, Cond.direct v) ∈ wm →
      lookupAssoc (convertILIKEtoLower wm) f = some (Cond.direct v))
  ∧ (∀ (bw : List (String × Cond) → Except String (String × List GoValue))
      (sf : List String) (t : String) (gb ob : List String)
      (l off : Int) (wc : String) (args : List GoValue),
      bw (convertILIKEtoLower wm) = .ok (wc, args) →
      tableGet bw sf t wm gb ob l off
        = .ok (tableGetQuery sf t wc gb ob l off, args)) := by
  refine ⟨?_, ?_, ?_, ?_⟩
  · intro f m m1 m2 op s hmem hm h1 h2 hop hnodup
    subst hm
    have hseg := convertField_ops_one f op s m1 m2 h1 h2 hop hnodup
    refine ⟨?_, ?_, ?_⟩
    · rw [lookup_designated wm hpw f _ hmem (lowKey f) (Or.inr rfl), hseg]
      simp [lookupAssoc]
    · intro hne
      rw [lookup_designated wm hpw f _ hmem f (Or.inl rfl), hseg]
      rw [if_neg hne]
      simp [lookupAssoc, lowKey_ne f]
    · intro heq
      rw [lookup_designated wm hpw f _ hmem f (Or.inl rfl), hseg]
      rw [if_pos heq]
      simp [lookupAssoc, lowKey_ne f]
  · intro f m hmem hnone hnodup
    rw [lookup_designated wm hpw f _ hmem f (Or.inl rfl),
      convertField_ops_none f m hnone hnodup]
    simp [lookupAssoc]
  · intro f v hmem
    rw [lookup_designated wm hpw f _ hmem f (Or.inl rfl)]
    show lookupAssoc (mapSet [] f (Cond.direct v)) f = _
    simp [mapSet, hasKey, lookupAssoc]
  · intro bw sf t gb ob l off wc args hbw
    simp [tableGet, hbw]

instance : DecidableRel sepRel := fun e e2 => by
  unfold sepRel
  infer_instance

/-- Concrete WHERE map for the C5 witness: a field with an ILIKE operator
plus another operator, and a second field with a direct condition. -/
def wmILIKEexample : List (String × Cond) :=
  [("name", Cond.ops [("ILIKE", GoValue.vStr "%Bob%"),
      (">", GoValue.vInt 3)]),
   ("age", Cond.direct (GoValue.vInt 7))]

/-- Witness for C5: the example map is collision-free, the rewrite binds
`LOWER(name)` to the lowered LIKE, keeps the other operator under "name",
passes the direct condition through, and the whole rewritten map is as
expected by direct evaluation. -/
theorem convertILIKE_rewrite_witness :
    List.Pairwise sepRel wmILIKEexample
  ∧ lookupAssoc (convertILIKEtoLower wmILIKEexample) "LOWER(name)"
      = some (Cond.ops [("LIKE", GoValue.vStr "%bob%")])
  ∧ lookupAssoc (convertILIKEtoLower wmILIKEexample) "name"
      = some (Cond.ops [(">", GoValue.vInt 3)])
  ∧ lookupAssoc (convertILIKEtoLower wmILIKEexample) "age"
      = some (Cond.direct (GoValue.vInt 7))
  ∧ convertILIKEtoLower wmILIKEexample
      = [("LOWER(name)", Cond.ops [("LIKE", GoValue.vStr "%bob%")]),
         ("name", Cond.ops [(">", GoValue.vInt 3)]),
         ("age", Cond.direct (GoValue.vInt 7))] := by
  have h := (convertILIKE_rewrite wmILIKEexample (by decide)).1 "name"
    [("ILIKE", GoValue.vStr "%Bob%"), (">", GoValue.vInt 3)]
    [] [(">", GoValue.vInt 3)] "ILIKE" "%Bob%"
    (by decide) rfl (by decide) (by decide) (by decide) (by decide)
  have hage := (convertILIKE_rewrite wmILIKEexample (by decide)).2.2.1
    "age" (GoValue.vInt 7) (by decide)
  have e1 : lowKey "name" = "LOWER(name)" := by decide
  have e2 : strLower "%Bob%" = "%bob%" := by decide
  refine ⟨by decide, ?_, ?_, hage, by decide⟩
  · rw [← e1, ← e2]
    exact h.1
  · exact h.2.1 (by decide)

/-- C6: the generated read query composes its clauses in the fixed order
SELECT, FROM, WHERE, GROUP BY, ORDER BY, LIMIT, OFFSET; the field list is
`*` when `selectFields` is empty; GROUP BY and ORDER BY are omitted when
their lists are empty; LIMIT and OFFSET are omitted when non-positive. -/
theorem tableGet_clause_order (sf : List String) (t wc : String)
    (gb ob : List String) (l o : Int) :
    ∃ fieldsPart gbPart obPart limPart offPart : String,
      tableGetQuery sf t wc gb ob l o =
        "SELECT " ++ fieldsPart ++ " FROM " ++ t ++ wc ++ gbPart ++ obPart
          ++ limPart ++ offPart
    ∧ (sf = [] → fieldsPart = "*")
    ∧ (sf ≠ [] → fieldsPart = goJoin ", " sf)
    ∧ (gb = [] → gbPart = "")
    ∧ (gb ≠ [] → gbPart = " GROUP BY " ++ goJoin ", " gb)
    ∧ (ob = [] → obPart = "")
    ∧ (ob ≠ [] → obPart = " ORDER BY " ++ goJoin ", " ob)
    ∧ (l ≤ 0 → limPart = "")
    ∧ (0 < l → limPart = " LIMIT " ++ toString l)
    ∧ (o ≤ 0 → offPart = "")
    ∧ (0 < o → offPart = " OFFSET " ++ toString o) := by
  refine ⟨if sf.length > 0 then goJoin ", " sf else "*",
    if gb.length > 0 then " GROUP BY " ++ goJoin ", " gb else "",
    if ob.length > 0 then " ORDER BY " ++ goJoin ", " ob else "",
    if l > 0 then " LIMIT " ++ toString l else "",
    if o > 0 then " OFFSET " ++ toString o else "",
    rfl, ?_, ?_, ?_, ?_, ?_, ?_, ?_, ?_, ?_, ?_⟩
  · intro h; simp [h]
  · intro h
    rw [if_pos (by simpa [List.length_pos] using h)]
  · intro h; simp [h]
  · intro h
    rw [if_pos (by simpa [List.length_pos] using h)]
  · intro h; simp [h]
  · intro h
    rw [if_pos (by simpa [List.length_pos] using h)]
  · intro h; rw [if_neg (by omega)]
  · intro h; rw [if_pos h]
  · intro h; rw [if_neg (by omega)]
  · intro h; rw [if_pos h]

/-- Witness for C6: a concrete query with all clauses present, plus one
with everything omitted, checked against the theorem and by direct
evaluation. -/
theorem tableGet_clause_order_witness :
    (∃ fieldsPart gbPart obPart limPart offPart : String,
      tableGetQuery ["a", "b"] "t" " WHERE id = ?" ["g"] ["o DESC"] 10 20 =
        "SELECT " ++ fieldsPart ++ " FROM " ++ "t" ++ " WHERE id = ?"
          ++ gbPart ++ obPart ++ limPart ++ offPart
    ∧ (["a", "b"] = ([] : List String) → fieldsPart = "*")
    ∧ (["a", "b"] ≠ ([] : List String) → fieldsPart = goJoin ", " ["a", "b"])
    ∧ (["g"] = ([] : List String) → gbPart = "")
    ∧ (["g"] ≠ ([] : List String) → gbPart = " GROUP BY " ++ goJoin ", " ["g"])
    ∧ (["o DESC"] = ([] : List String) → obPart = "")
    ∧ (["o DESC"] ≠ ([] : List String) →
        obPart = " ORDER BY " ++ goJoin ", " ["o DESC"])
    ∧ ((10 : Int) ≤ 0 → limPart = "")
    ∧ ((0 : Int) < 10 → limPart = " LIMIT " ++ toString (10 : Int))
    ∧ ((20 : Int) ≤ 0 → offPart = "")
    ∧ ((0 : Int) < 20 → offPart = " OFFSET " ++ toString (20 : Int)))
  ∧ tableGetQuery ["a", "b"] "t" " WHERE id = ?" ["g"] ["o DESC"] 10 20 =
      "SELECT a, b FROM t WHERE id = ? GROUP BY g ORDER BY o DESC LIMIT 10 OFFSET 20"
  ∧ tableGetQuery [] "t" "" [] [] 0 (-1) = "SELECT * FROM t" :=
  ⟨tableGet_clause_order ["a", "b"] "t" " WHERE id = ?" ["g"] ["o DESC"]
      10 20,
   by decide, by decide⟩

/-- A temporal value as the driver delivers it (Go `time.Time`), reduced
to the components read by `scanRows`: calendar date and time of day. -/
structure GoTime where
  year : Nat
  month : Nat
  day : Nat
  hour : Nat
  minute : Nat
  second : Nat
  nanosecond : Nat
  deriving DecidableEq, Repr

/-- Two-digit zero padding, as Go layouts `01`, `02`, `15`, `04`, `05`. -/
def pad2 (n : Nat) : String := if n < 10 then "0" ++ toString n else toString n

/-- Four-digit zero padding, as the Go layout `2006`. -/
def pad4 (n : Nat) : String :=
  if n < 10 then "000" ++ toString n
  else if n < 100 then "00" ++ toString n
  else if n < 1000 then "0" ++ toString n
  else toString n

/-- Go `t.Format("2006-01-02")`. -/
def formatDate (t : GoTime) : String :=
  pad4 t.year ++ "-" ++ pad2 t.month ++ "-" ++ pad2 t.day

/-- Go `t.Format("2006-01-02 15:04:05")`. -/
def formatDateTime (t : GoTime) : String :=
  formatDate t ++ " " ++ pad2 t.hour ++ ":" ++ pad2 t.minute ++ ":"
    ++ pad2 t.second

/-- A scanned column value as the type switch in `scanRows` sees it: a
temporal value, an opaque byte sequence (held as its UTF-8 text), or any
other scalar. -/
inductive ScanVal where
  | sTime (t : GoTime)
  | sBytes (b : String)
  | sOther (v : GoValue)
  deriving DecidableEq, Repr

/-- A normalized cell value produced by `scanRows`: a formatted or raw
string, a decoded JSON structure (of the decoder's result type `J`), or an
unchanged pass-through scalar. -/
inductive CellVal (J : Type) where
  | cStr (s : String)
  | cJson (j : J)
  | cPass (v : GoValue)
  deriving DecidableEq, Repr

/-- The per-value normalization of `scanRows` (part_005 lines 136-156),
parameterized by the external JSON decoder (`json.Unmarshal`): a temporal
value with zero time of day formats as a date, any other temporal value as
a full timestamp; bytes become the decoded JSON when decoding succeeds and
the raw string otherwise; anything else passes through. -/
def convertVal {J : Type} (dec : String → Option J) : ScanVal → CellVal J
  | .sTime t =>
      .cStr (if t.hour = 0 ∧ t.minute = 0 ∧ t.second = 0
          ∧ t.nanosecond = 0 then formatDate t
        else formatDateTime t)
  | .sBytes b =>
      match dec b with
      | some j => .cJson j
      | none => .cStr b
  | .sOther v => .cPass v

/-- An abstract forward-only cursor (the `rowScanner` interface): the
column-metadata outcome, the per-row scan outcomes in order, and the
terminal `Err()` value. -/
structure FakeRows where
  cols : Except String (List String)
  rows : List (Except String (List ScanVal))
  iterErr : Option String

/-- The row loop of `scanRows` (part_005 lines 130-159): rows convert in
order; the first scan error aborts with no partial rows. -/
def scanRowsLoop {J : Type} (dec : String → Option J)
    (cols : List String) :
    List (Except String (List ScanVal)) →
      Except String (List (List (String × CellVal J)))
  | [] => .ok []
  | .error e :: _ => .error ("failed to scan row: " ++ e)
  | .ok vals :: rest =>
      match scanRowsLoop dec cols rest with
      | .error e => .error e
      | .ok rs => .ok ((cols.zip (vals.map (convertVal dec))) :: rs)

/-- `scanRows` (part_005 lines 117-164): column metadata, the row loop,
then the terminal error check. -/
def scanRows {J : Type} (dec : String → Option J) (r : FakeRows) :
    Except String (List (List (String × CellVal J))) :=
  match r.cols with
  | .error e => .error ("failed to get columns: " ++ e)
  | .ok cols =>
      match scanRowsLoop dec cols r.rows with
      | .error e => .error e
      | .ok results =>
          match r.iterErr with
          | some e => .error ("row iteration error: " ++ e)
          | none => .ok results

theorem scanRowsLoop_error {J : Type} (dec : String → Option J)
    (cols : List String) (rows : List (Except String (List ScanVal)))
    (e : String) (h : Except.error e ∈ rows) :
    ∃ msg, scanRowsLoop dec cols rows = .error msg := by
  induction rows with
  | nil => exact absurd h (List.not_mem_nil _)
  | cons row rest ih =>
      cases row with
      | error e2 => exact ⟨"failed to scan row: " ++ e2, rfl⟩
      | ok vals =>
          have h2 : Except.error e ∈ rest := by
            rcases List.mem_cons.mp h with h1 | h1
            · cases h1
            · exact h1
          obtain ⟨msg, hmsg⟩ := ih h2
          exact ⟨msg, by simp [scanRowsLoop, hmsg]⟩

/-- C7: each scanned value normalizes as specified — midnight temporal
values render as `YYYY-MM-DD`, other temporal values as
`YYYY-MM-DD HH:MM:SS`, byte sequences become their decoded JSON when
decoding succeeds and their UTF-8 string otherwise, all other scalars pass
through unchanged — and any column-metadata error, per-row scan error or
iteration error aborts the whole read with an error and no partial rows,
while an error-free cursor yields exactly the converted rows. -/
theorem scanRows_normalization {J : Type} (dec : String → Option J) :
    (∀ t : GoTime, t.hour = 0 ∧ t.minute = 0 ∧ t.second = 0
        ∧ t.nanosecond = 0 →
      convertVal dec (.sTime t) = .cStr (formatDate t))
  ∧ (∀ t : GoTime, ¬(t.hour = 0 ∧ t.minute = 0 ∧ t.second = 0
        ∧ t.nanosecond = 0) →
      convertVal dec (.sTime t) = .cStr (formatDateTime t))
  ∧ (∀ b j, dec b = some j → convertVal dec (.sBytes b) = .cJson j)
  ∧ (∀ b, dec b = none → convertVal dec (.sBytes b) = .cStr b)
  ∧ (∀ v, convertVal dec (.sOther v) = .cPass v)
  ∧ (∀ r : FakeRows,
      ((∃ e, r.cols = .error e) ∨ (∃ e, Except.error e ∈ r.rows)
        ∨ (∃ e, r.iterErr = some e)) →
      ∃ msg, scanRows dec r = .error msg)
  ∧ (∀ (cols : List String) (vals : List (List ScanVal)),
      scanRows dec ⟨.ok cols, vals.map .ok, none⟩
        = .ok (vals.map (fun vs => cols.zip (vs.map (convertVal dec))))) := by
  refine ⟨?_, ?_, ?_, ?_, ?_, ?_, ?_⟩
  · intro t ht; simp [convertVal, ht]
  · intro t ht; simp [convertVal, ht]
  · intro b j hj; simp [convertVal, hj]
  · intro b hb; simp [convertVal, hb]
  · intro v; rfl
  · rintro ⟨cols, rows, iterErr⟩ (⟨e, he⟩ | ⟨e, he⟩ | ⟨e, he⟩)
    · subst he
      exact ⟨"failed to get columns: " ++ e, rfl⟩
    · cases cols with
      | error e2 => exact ⟨"failed to get columns: " ++ e2, rfl⟩
      | ok cl =>
          obtain ⟨msg, hmsg⟩ := scanRowsLoop_error dec cl rows e he
          exact ⟨msg, by simp [scanRows, hmsg]⟩
    · subst he
      cases cols with
      | error e2 => exact ⟨"failed to get columns: " ++ e2, rfl⟩
      | ok cl =>
          cases hl : scanRowsLoop dec cl rows with
          | error msg => exact ⟨msg, by simp [scanRows, hl]⟩
          | ok rs =>
              exact ⟨"row iteration error: " ++ e, by simp [scanRows, hl]⟩
  · intro cols vals
    show (match scanRowsLoop dec cols (vals.map .ok) with
      | .error e => Except.error e
      | .ok results => .ok results) = _
    have hloop : ∀ vs : List (List ScanVal),
        scanRowsLoop dec cols (vs.map .ok)
          = .ok (vs.map (fun v => cols.zip (v.map (convertVal dec)))) := by
      intro vs
      induction vs with
      | nil => rfl
      | cons v rest ih => simp [scanRowsLoop, ih]
    rw [hloop vals]

/-- Witness for C7: a midnight date, a noon timestamp, a JSON byte
payload, a non-JSON byte payload and a plain integer, scanned from a
two-row cursor, plus the abort behavior on a scan error. -/
theorem scanRows_normalization_witness :
    (((⟨2024, 5, 3, 0, 0, 0, 0⟩ : GoTime).hour = 0
      ∧ (⟨2024, 5, 3, 0, 0, 0, 0⟩ : GoTime).minute = 0
      ∧ (⟨2024, 5, 3, 0, 0, 0, 0⟩ : GoTime).second = 0
      ∧ (⟨2024, 5, 3, 0, 0, 0, 0⟩ : GoTime).nanosecond = 0)
    ∧ convertVal (fun s => if s = "[1]" then some 1 else none)
        (.sTime ⟨2024, 5, 3, 0, 0, 0, 0⟩)
        = .cStr (formatDate ⟨2024, 5, 3, 0, 0, 0, 0⟩))
  ∧ formatDate ⟨2024, 5, 3, 0, 0, 0, 0⟩ = "2024-05-03"
  ∧ convertVal (fun s => if s = "[1]" then some 1 else none)
      (.sTime ⟨2024, 5, 3, 13, 2, 9, 0⟩) = .cStr "2024-05-03 13:02:09"
  ∧ scanRows (fun s => if s = "[1]" then some 1 else none)
      ⟨.ok ["d", "j", "n"],
       [.ok [.sTime ⟨2024, 5, 3, 0, 0, 0, 0⟩, .sBytes "[1]",
          .sOther (GoValue.vInt 5)],
        .ok [.sTime ⟨2024, 5, 3, 13, 2, 9, 0⟩, .sBytes "notjson",
          .sOther GoValue.vNull]], none⟩
      = .ok [[("d", .cStr "2024-05-03"), ("j", .cJson 1),
              ("n", .cPass (GoValue.vInt 5))],
             [("d", .cStr "2024-05-03 13:02:09"), ("j", .cStr "notjson"),
              ("n", .cPass GoValue.vNull)]]
  ∧ (∃ msg, scanRows (fun s => if s = "[1]" then some 1 else none)
      ⟨.ok ["d"], [.error "boom"], none⟩ = .error msg) := by
  refine ⟨⟨by decide, (scanRows_normalization
      (fun s => if s = "[1]" then some 1 else none)).1
      ⟨2024, 5, 3, 0, 0, 0, 0⟩ (by decide)⟩,
    by decide, by decide, by decide, ?_⟩
  exact (scanRows_normalization
      (fun s => if s = "[1]" then some 1 else none)).2.2.2.2.2.1
    ⟨.ok ["d"], [.error "boom"], none⟩ (Or.inr (Or.inl ⟨"boom",
      List.mem_singleton.mpr rfl⟩))

theorem lookupAssoc_mapSet_self {α : Type} (m : List (String × α))
    (k : String) (v : α) : lookupAssoc (mapSet m k v) k = some v := by
  by_cases h : hasKey m k = true
  · have hrep : ∀ m2 : List (String × α), hasKey m2 k = true →
        lookupAssoc (m2.map (fun kv => if kv.fst = k then (k, v) else kv)) k
          = some v := by
      intro m2
      induction m2 with
      | nil => intro h2; simp [hasKey] at h2
      | cons e rest ih =>
          intro h2
          by_cases he : e.fst = k
          · simp only [List.map_cons]
            rw [if_pos he]
            simp [lookupAssoc]
          · have h3 : hasKey rest k = true := by
              simpa [hasKey, he] using h2
            simp only [List.map_cons]
            rw [if_neg he]
            simp [lookupAssoc, he, ih h3]
    simp only [mapSet, if_pos h]
    exact hrep m h
  · have h2 : hasKey m k = false := by
      cases hh : hasKey m k with
      | true => exact absurd hh h
      | false => rfl
    rw [mapSet_fresh v h2, lookupAssoc_append_left_none _ h2]
    simp [lookupAssoc]

/-- One scanned row of the `information_schema.parameters` query in
`loadRoutines` (part_005 lines 309-314), after the `sql.Null*` unwrapping
the code performs: the `.String` fields (empty when NULL) and the ordinal
with its validity flag. -/
structure RoutineRow where
  specificName : String
  paramName : String
  dataType : String
  paramMode : String
  ordinalValid : Bool
  ordinalInt : Int
  deriving DecidableEq, Repr

/-- The update `loadRoutines` applies to one routine's info for one
metadata row (part_005 lines 320-340): ordinal 0 records the return type;
otherwise an empty mode defaults to IN, IN/INOUT parameters are appended,
and any other mode leaves the info unchanged. -/
def processedInfo (rInfo : RoutineInfo) (row : RoutineRow) : RoutineInfo :=
  if (if row.ordinalValid then row.ordinalInt else 0) = 0 then
    { rInfo with returnType := row.dataType }
  else
    if (if row.paramMode = "" then "IN" else row.paramMode) = "IN"
        ∨ (if row.paramMode = "" then "IN" else row.paramMode)
          = "INOUT" then
      { rInfo with params := rInfo.params ++
          [⟨row.paramName, row.dataType,
            (if row.paramMode = "" then "IN" else row.paramMode),
            (if row.ordinalValid then row.ordinalInt else 0)⟩] }
    else rInfo

/-- One iteration of the row loop of `loadRoutines` (part_005 lines
309-342): fetch or create the routine's info, update it for the row, and
store it back. -/
def processRoutineRow (routines : List (String × RoutineInfo))
    (row : RoutineRow) : List (String × RoutineInfo) :=
  mapSet routines row.specificName
    (processedInfo
      ((lookupAssoc routines row.specificName).getD
        ⟨row.specificName, [], ""⟩)
      row)

/-- `loadRoutines` (part_005 lines 296-344) over a scanned row sequence. -/
def loadRoutines (rows : List RoutineRow) : List (String × RoutineInfo) :=
  rows.foldl processRoutineRow []

/-- C8: for each routine-metadata row, ordinal position 0 sets the
routine's return type and adds no parameter; ordinal at least 1 with mode
IN or INOUT (an empty mode counting as IN) appends one parameter at the end
of the list, in position order; and ordinal at least 1 with mode OUT leaves
the parameter list (and the whole info) unchanged. -/
theorem loadRoutines_row_cases (routines : List (String × RoutineInfo))
    (row : RoutineRow) (before : RoutineInfo) (op : Int)
    (hb : before = (lookupAssoc routines row.specificName).getD
      ⟨row.specificName, [], ""⟩)
    (hop : op = (if row.ordinalValid then row.ordinalInt else 0)) :
    (op = 0 →
      lookupAssoc (processRoutineRow routines row) row.specificName
        = some ⟨before.name, before.params, row.dataType⟩)
  ∧ (1 ≤ op →
      (row.paramMode = "IN" ∨ row.paramMode = "INOUT"
        ∨ row.paramMode = "") →
      lookupAssoc (processRoutineRow routines row) row.specificName
        = some ⟨before.name,
            before.params ++ [⟨row.paramName, row.dataType,
              (if row.paramMode = "" then "IN" else row.paramMode), op⟩],
            before.returnType⟩)
  ∧ (1 ≤ op → row.paramMode = "OUT" →
      lookupAssoc (processRoutineRow routines row) row.specificName
        = some before)
  ∧ (∀ rows : List RoutineRow,
      loadRoutines rows = rows.foldl processRoutineRow []) := by
  have hlook : lookupAssoc (processRoutineRow routines row)
      row.specificName = some (processedInfo before row) := by
    rw [hb]
    exact lookupAssoc_mapSet_self _ _ _
  refine ⟨?_, ?_, ?_, fun rows => rfl⟩
  · intro h0
    rw [hlook, processedInfo, if_pos (by rw [← hop]; exact h0)]
  · intro h1 hmode
    have hne : ¬((if row.ordinalValid then row.ordinalInt else 0) = 0) := by
      rw [← hop]; omega
    rw [hlook, processedInfo, if_neg hne]
    rcases hmode with hm | hm | hm
    · rw [if_pos (by rw [hm]; simp), ← hop]
    · rw [if_pos (by rw [hm]; simp), ← hop]
    · rw [if_pos (by rw [hm]; simp), ← hop]
  · intro h1 hm
    have hne : ¬((if row.ordinalValid then row.ordinalInt else 0) = 0) := by
      rw [← hop]; omega
    have hmode2 :
        ¬((if row.paramMode = "" then "IN" else row.paramMode) = "IN"
          ∨ (if row.paramMode = "" then "IN" else row.paramMode)
            = "INOUT") := by
      rw [hm]
      simp
    rw [hlook, processedInfo, if_neg hne, if_neg hmode2]

/-- Witness for C8: against an empty catalog, an ordinal-1 IN row appends
one parameter; a three-row sequence (NULL-ordinal return-type row, an IN
parameter and an OUT parameter) loads into one routine with one parameter
and the OUT row dropped. -/
theorem loadRoutines_row_cases_witness :
    ((⟨"f", [], ""⟩ : RoutineInfo)
        = (lookupAssoc ([] : List (String × RoutineInfo)) "f").getD
            ⟨"f", [], ""⟩
    ∧ (1 : Int) = (if (true : Bool) then (1 : Int) else 0)
    ∧ (1 : Int) ≤ 1)
  ∧ lookupAssoc (processRoutineRow []
        ⟨"f", "x", "int", "IN", true, 1⟩) "f"
      = some ⟨"f", ([] : List RoutineParam) ++ [⟨"x", "int",
          (if ("IN" : String) = "" then "IN" else "IN"), 1⟩], ""⟩
  ∧ loadRoutines
      [⟨"f", "", "text", "", false, 0⟩,
       ⟨"f", "x", "int", "IN", true, 1⟩,
       ⟨"f", "y", "int", "OUT", true, 2⟩]
    = [("f", ⟨"f", [⟨"x", "int", "IN", 1⟩], "text"⟩)] :=
  ⟨⟨rfl, rfl, by decide⟩,
   (loadRoutines_row_cases [] ⟨"f", "x", "int", "IN", true, 1⟩
      ⟨"f", [], ""⟩ 1 rfl rfl).2.1 (by decide) (Or.inl rfl),
   by decide⟩

theorem hasKey_false_of_lookup_none {α : Type} {s : List (String × α)}
    {k : String} (h : lookupAssoc s k = none) : hasKey s k = false := by
  induction s with
  | nil => rfl
  | cons e rest ih =>
      obtain ⟨k1, v1⟩ := e
      by_cases hk : k1 = k
      · simp only [lookupAssoc, if_pos hk] at h
        cases h
      · simp only [lookupAssoc, if_neg hk] at h
        apply hasKey_of_entries
        intro kv hkv
        rcases List.mem_cons.mp hkv with rfl | h2
        · exact hk
        · exact hasKey_false_entries (ih h) kv h2

/-- A row of the `easyrest_cache` table: the value and the expiry
timestamp (time modelled as an integer). -/
structure CacheRow where
  value : String
  expiresAt : Int
  deriving DecidableEq, Repr

/-- The exact upsert statement text issued by cache `Set`
(part_005 line 954). -/
def cacheSetQuery : String :=
  "INSERT INTO easyrest_cache (`key`, value, expires_at) VALUES (?, ?, ?) ON DUPLICATE KEY UPDATE value = VALUES(value), expires_at = VALUES(expires_at)"

/-- The exact lookup statement text issued by cache `Get`
(part_005 line 971). -/
def cacheGetQuery : String :=
  "SELECT value FROM easyrest_cache WHERE `key` = ? AND expires_at > NOW()"

/-- The single statement cache `Set` executes (part_005 lines 947-962):
the fixed upsert query with the key, the value and the computed expiry
bound in that order. -/
def cacheSetStmt (key value : String) (expiresAt : Int) :
    String × List GoValue :=
  (cacheSetQuery,
   [GoValue.vStr key, GoValue.vStr value, GoValue.vInt expiresAt])

/-- Modelled from the MySQL semantics of the statement in `cacheSetQuery`
(`INSERT ... ON DUPLICATE KEY UPDATE` against the primary-key column
`key`): insert the row when the key is absent, otherwise overwrite both
the value and the expiry of the existing row. -/
def execCacheSet (s : List (String × CacheRow)) (key value : String)
    (expiresAt : Int) : List (String × CacheRow) :=
  mapSet s key ⟨value, expiresAt⟩

/-- Modelled from the MySQL semantics of the statement in `cacheGetQuery`:
the value when the key is present and not yet expired, otherwise an empty
result set, surfaced by `Get` as `sql.ErrNoRows`. -/
def execCacheGet (s : List (String × CacheRow)) (key : String)
    (now : Int) : Except String String :=
  match lookupAssoc s key with
  | some row =>
      if now < row.expiresAt then .ok row.value
      else .error "sql: no rows in result set"
  | none => .error "sql: no rows in result set"

/-- C10: cache `Set` is an upsert — it issues the one fixed
insert-or-update statement, inserts the key when absent, replaces both the
stored value and the expiry when present, and a `Get` before the new
expiry returns the most recently set value instead of failing on the
duplicate key. -/
theorem cacheSet_upsert (s : List (String × CacheRow)) (k v1 v2 : String)
    (e1 e2 now : Int) :
    cacheSetStmt k v2 e2
      = (cacheSetQuery,
         [GoValue.vStr k, GoValue.vStr v2, GoValue.vInt e2])
  ∧ (lookupAssoc s k = none →
      execCacheSet s k v1 e1 = s ++ [(k, ⟨v1, e1⟩)])
  ∧ lookupAssoc (execCacheSet (execCacheSet s k v1 e1) k v2 e2) k
      = some ⟨v2, e2⟩
  ∧ (now < e2 →
      execCacheGet (execCacheSet (execCacheSet s k v1 e1) k v2 e2) k now
        = .ok v2) := by
  have hlook : lookupAssoc (execCacheSet (execCacheSet s k v1 e1) k v2 e2) k
      = some ⟨v2, e2⟩ := lookupAssoc_mapSet_self _ _ _
  refine ⟨rfl, ?_, hlook, ?_⟩
  · intro h
    exact mapSet_fresh _ (hasKey_false_of_lookup_none h)
  · intro h
    simp only [execCacheGet, hlook]
    rw [if_pos h]

/-- Witness for C10: overwriting an existing key and reading it back
before expiry yields the newest value; the same is checked by direct
evaluation. -/
theorem cacheSet_upsert_witness :
    ((lookupAssoc ([] : List (String × CacheRow)) "k" = none)
    ∧ ((7 : Int) < 9))
  ∧ lookupAssoc (execCacheSet (execCacheSet [("a", ⟨"x", 3⟩)] "k" "old" 5)
        "k" "new" 9) "k" = some ⟨"new", 9⟩
  ∧ execCacheGet (execCacheSet (execCacheSet [("a", ⟨"x", 3⟩)] "k" "old" 5)
        "k" "new" 9) "k" 7 = .ok "new"
  ∧ execCacheSet (execCacheSet [("a", ⟨"x", 3⟩)] "k" "old" 5) "k" "new" 9
      = [("a", ⟨"x", 3⟩), ("k", ⟨"new", 9⟩)] :=
  ⟨⟨rfl, by decide⟩,
   (cacheSet_upsert [("a", ⟨"x", 3⟩)] "k" "old" "new" 5 9 7).2.2.1,
   (cacheSet_upsert [("a", ⟨"x", 3⟩)] "k" "old" "new" 5 9 7).2.2.2
     (by decide),
   by decide⟩

end MySQLPlugin
